import Mathlib

/-!
# Verification of the cf-worker-proxy request-authorization pipeline

This development gives a shallow embedding of the request-authorization and
header-transformation pipeline of the `cf-worker-proxy` Cloudflare Worker:
secret interpolation (`src/secret-interpolation.ts`), legacy/modern auth
merging and header helpers (`src/utils/auth-helpers.ts`), the two-tier
authentication decision (`src/request-processor.ts`, `src/utils/global-auth.ts`),
the header processor (`src/header-processor.ts`) and the configuration
validator (`src/config-validator.ts`), together with proofs of the properties
stated in the system specification.

Platform collaborators (the Fetch `Headers` object, `JSON.parse`, the WHATWG
`URL` constructor and the JavaScript regular-expression engine) are not
repository code; they are modelled explicitly, and each model is documented at
its definition site.
-/

set_option autoImplicit false

namespace CFProxy

/-! ## Data model (src/types.ts) -/

/-- The `AuthConfig` from `src/types.ts`: one required header / expected-value pair.
The optional `required` field exists in the interface but is read by none of
the authentication functions. -/
structure AuthConfig where
  header : String
  value : String
  required : Option Bool := none
  deriving DecidableEq, Repr

/-- The `ServerConfig` from `src/types.ts`: backend URL, optional custom headers,
optional legacy single-header auth (`auth` / `authHeader`) and optional modern
`authConfigs` list.  `Record<string, string>` objects are modelled as ordered
association lists (JavaScript object entries are ordered). -/
structure ServerConfig where
  url : String
  headers : Option (List (String × String)) := none
  auth : Option String := none
  authHeader : Option String := none
  authConfigs : Option (List AuthConfig) := none
  deriving DecidableEq, Repr

/-! ## Headers model

The Fetch `Headers` object is a platform collaborator.  It is modelled as an
ordered list of (name, value) pairs with case-insensitive name matching:
`get` returns the value of the first name-matching pair, and `set` updates the
first name-matching pair in place (keeping its stored casing) and removes any
later duplicates, appending when the name is absent — exactly the Fetch
specification's header-list `get`/`set` operations.  The Workers runtime hands
the pipeline name-unique header lists (duplicates arrive already combined), so
on every list the runtime can produce this model agrees with the platform. -/

/-- Platform model of JavaScript `String.prototype.toLowerCase()`, restricted
to ASCII (HTTP header names are ASCII tokens).  Defined over the character
list so that it evaluates by kernel reduction. -/
def lowerStr (s : String) : String :=
  String.mk (s.data.map Char.toLower)

/-- Platform model of JavaScript `String.prototype.trim()`: strips leading
and trailing whitespace. -/
def trimStr (s : String) : String :=
  String.mk (((s.data.dropWhile Char.isWhitespace).reverse.dropWhile
    Char.isWhitespace).reverse)

/-- A Fetch `Headers` object, as an ordered association list. -/
abbrev HeaderMap := List (String × String)

/-- The `Headers.get`: case-insensitive lookup of the first matching pair. -/
def headersGet (h : HeaderMap) (name : String) : Option String :=
  (h.find? (fun p => lowerStr p.1 == lowerStr name)).map (fun p => p.2)

/-- The `Headers.has`: case-insensitive membership. -/
def headersHas (h : HeaderMap) (name : String) : Bool :=
  (headersGet h name).isSome

/-- Removes every pair whose name matches `name` case-insensitively (the
"remove all other headers" part of the Fetch `set` operation). -/
def headersRemoveAll (h : HeaderMap) (name : String) : HeaderMap :=
  h.filter (fun p => !(lowerStr p.1 == lowerStr name))

/-- The `Headers.set`: replace the value of the first name-matching pair (keeping
its stored casing) and drop later duplicates; append when absent. -/
def headersSet : HeaderMap → String → String → HeaderMap
  | [], name, value => [(name, value)]
  | p :: rest, name, value =>
    if lowerStr p.1 == lowerStr name then
      (p.1, value) :: headersRemoveAll rest name
    else
      p :: headersSet rest name value

/-! ## Authentication matchers

`checkAuth` (from `src/request-processor.ts`) and `checkGlobalAuth` (from
`src/utils/global-auth.ts`) are translated separately, each following its own
source text, so that their equivalence (claim C10) is a fact about the two
implementations rather than an artifact of sharing a definition.
`request.headers.get` returns `null` for an absent header and the JavaScript
guard `if (!headerValue) return false` also rejects the empty string, which is
falsy. -/

/-- The `checkAuth` from `src/request-processor.ts`: "any one match" on the
per-server auth configs; an empty list allows access. -/
def checkAuth (reqHeaders : HeaderMap) (authConfigs : List AuthConfig) : Bool :=
  if authConfigs.length = 0 then
    true
  else
    let hasValidMatch := authConfigs.any (fun config =>
      match headersGet reqHeaders config.header with
      | none => false
      | some headerValue =>
        if headerValue = "" then false else headerValue == config.value)
    if hasValidMatch then true else false

/-- The `checkGlobalAuth` from `src/utils/global-auth.ts`: "any one match" on the
global auth configs; an empty list allows access. -/
def checkGlobalAuth (reqHeaders : HeaderMap) (globalAuthConfigs : List AuthConfig) : Bool :=
  if globalAuthConfigs.length = 0 then
    true
  else
    globalAuthConfigs.any (fun config =>
      match headersGet reqHeaders config.header with
      | none => false
      | some headerValue =>
        if headerValue = "" then false else headerValue == config.value)

/-- Result record of `checkTwoTierAuth` (`src/request-processor.ts`). -/
structure TwoTierAuthResult where
  authenticated : Bool
  usedGlobalAuth : Bool
  deriving DecidableEq, Repr

/-- The `checkTwoTierAuth` from `src/request-processor.ts`: global tier first
(only when configured), then per-server, with the explicit guard that an empty
per-server list only allows access when no global auth is configured. -/
def checkTwoTierAuth (reqHeaders : HeaderMap)
    (globalAuthConfigs perServerAuthConfigs : List AuthConfig) : TwoTierAuthResult :=
  let globalAuthConfigured := decide (globalAuthConfigs.length > 0)
  if globalAuthConfigured && checkGlobalAuth reqHeaders globalAuthConfigs then
    { authenticated := true, usedGlobalAuth := true }
  else if !globalAuthConfigured && decide (perServerAuthConfigs.length = 0) then
    { authenticated := true, usedGlobalAuth := false }
  else if decide (perServerAuthConfigs.length > 0) && checkAuth reqHeaders perServerAuthConfigs then
    { authenticated := true, usedGlobalAuth := false }
  else
    { authenticated := false, usedGlobalAuth := false }

/-- The ALLOW column of the decision table of spec §4.3, as a function of the
four discriminating booleans (global list empty?, anyMatch(global), server
list empty?, anyMatch(server)).  Rows in order: rows 1–3 under "global empty",
rows 4–7 otherwise; row 5 is the `serverEmpty → DENY` branch. -/
def twoTierTableAllows (globalEmpty globalMatch serverEmpty serverMatch : Bool) : Bool :=
  if globalEmpty then
    if serverEmpty then true else serverMatch
  else
    if globalMatch then true
    else if serverEmpty then false
    else serverMatch

/-! ## Claims C1 and C10 -/

/-- **C1.** For every request header map and every pair of auth-entry lists,
`checkTwoTierAuth` returns exactly the ALLOW/DENY outcome of the decision
table of spec §4.3 (instantiated with the code's `anyMatch` primitive, which
on an empty list is vacuously true); in particular, when the global list is
nonempty, no global entry matches, and the per-server list is empty, the
result is DENY — the empty per-server requirement does not fall open. -/
theorem checkTwoTierAuth_matches_decision_table
    (req : HeaderMap) (g s : List AuthConfig) :
    ((checkTwoTierAuth req g s).authenticated =
      twoTierTableAllows g.isEmpty (checkGlobalAuth req g) s.isEmpty (checkAuth req s))
    ∧ (g ≠ [] → checkGlobalAuth req g = false → s = [] →
        (checkTwoTierAuth req g s).authenticated = false) := by
  constructor
  · cases g with
    | nil =>
      cases s with
      | nil => simp [checkTwoTierAuth, twoTierTableAllows, checkGlobalAuth, checkAuth]
      | cons a t =>
        cases hs : checkAuth req (a :: t) <;>
          simp [checkTwoTierAuth, twoTierTableAllows, checkGlobalAuth, hs]
    | cons b u =>
      cases hg : checkGlobalAuth req (b :: u) with
      | true => simp [checkTwoTierAuth, twoTierTableAllows, hg]
      | false =>
        cases s with
        | nil => simp [checkTwoTierAuth, twoTierTableAllows, hg, checkAuth]
        | cons a t =>
          cases hs : checkAuth req (a :: t) <;>
            simp [checkTwoTierAuth, twoTierTableAllows, hg, hs]
  · intro hg hmatch hs
    subst hs
    cases g with
    | nil => exact absurd rfl hg
    | cons b u => simp [checkTwoTierAuth, hmatch]

/-- Witness for C1 at spec §8 Scenario B: global `[⟨X-Admin, secret⟩]`,
empty per-server list, request without headers — the decision is DENY. -/
theorem checkTwoTierAuth_matches_decision_table_witness :
    (checkTwoTierAuth [] [{ header := "X-Admin", value := "secret" }] []).authenticated = false := by
  have h := checkTwoTierAuth_matches_decision_table
    [] [{ header := "X-Admin", value := "secret" }] []
  exact h.2 (by decide) (by decide) rfl

/-- Per-entry characterization of the matching callback shared (textually) by
`checkAuth` and `checkGlobalAuth`. -/
theorem authEntryMatch_iff (req : HeaderMap) (c : AuthConfig) :
    (match headersGet req c.header with
      | none => false
      | some headerValue =>
        if headerValue = "" then false else headerValue == c.value) = true
    ↔ ∃ v, headersGet req c.header = some v ∧ v ≠ "" ∧ v = c.value := by
  cases hv : headersGet req c.header with
  | none => simp
  | some v =>
    by_cases hv0 : v = ""
    · subst hv0; simp
    · simp [hv0]

/-- The `checkAuth` as a single boolean expression: empty list, or some entry
matches. -/
theorem checkAuth_eq (req : HeaderMap) (configs : List AuthConfig) :
    checkAuth req configs = (configs.isEmpty || configs.any (fun config =>
      match headersGet req config.header with
      | none => false
      | some headerValue =>
        if headerValue = "" then false else headerValue == config.value)) := by
  unfold checkAuth
  cases configs with
  | nil => simp
  | cons a t =>
    simp only [List.length_cons, List.isEmpty_cons, Bool.false_or]
    rw [if_neg (by simp)]
    cases ((a :: t).any (fun config =>
      match headersGet req config.header with
      | none => false
      | some headerValue =>
        if headerValue = "" then false else headerValue == config.value)) <;> simp

/-- **C10.** The global-tier matcher `checkGlobalAuth` and the per-server
matcher `checkAuth` are extensionally equal, and both return `true` exactly
when the entry list is empty or some entry's header is present in the request
(case-insensitive lookup) with a non-empty value byte-for-byte equal to the
expected value. -/
theorem checkGlobalAuth_eq_checkAuth (req : HeaderMap) (configs : List AuthConfig) :
    checkGlobalAuth req configs = checkAuth req configs
    ∧ (checkAuth req configs = true ↔
        (configs = [] ∨ ∃ c ∈ configs, ∃ v,
          headersGet req c.header = some v ∧ v ≠ "" ∧ v = c.value)) := by
  constructor
  · rw [checkAuth_eq]
    unfold checkGlobalAuth
    cases configs with
    | nil => simp
    | cons a t =>
      simp only [List.length_cons, List.isEmpty_cons, Bool.false_or]
      rw [if_neg (by simp)]
  · rw [checkAuth_eq]
    simp only [Bool.or_eq_true, List.isEmpty_iff, List.any_eq_true]
    constructor
    · rintro (h | ⟨c, hc, hm⟩)
      · exact Or.inl h
      · exact Or.inr ⟨c, hc, (authEntryMatch_iff req c).mp hm⟩
    · rintro (h | ⟨c, hc, hm⟩)
      · exact Or.inl h
      · exact Or.inr ⟨c, hc, (authEntryMatch_iff req c).mpr hm⟩

/-! ## Auth config merging (src/utils/auth-helpers.ts) -/

/-- The `DEFAULT_HEADERS.AUTHORIZATION` from `src/constants.ts`. -/
def DEFAULT_AUTHORIZATION : String := "Authorization"

/-- The `mergeAuthConfigs` from `src/utils/auth-helpers.ts`.  JavaScript
truthiness is modelled explicitly: `if (serverConfig.auth)` skips the legacy
merge when the legacy value is absent *or the empty string*, and
`serverConfig.authHeader || DEFAULT_HEADERS.AUTHORIZATION` falls back to the
default when `authHeader` is absent or empty. -/
def mergeAuthConfigs (serverConfig : ServerConfig) : List AuthConfig :=
  let authConfigs := serverConfig.authConfigs.getD []
  match serverConfig.auth with
  | none => authConfigs
  | some a =>
    if a = "" then
      authConfigs
    else
      let legacyHeaderName :=
        match serverConfig.authHeader with
        | none => DEFAULT_AUTHORIZATION
        | some h => if h = "" then DEFAULT_AUTHORIZATION else h
      if authConfigs.any (fun config => lowerStr config.header == lowerStr legacyHeaderName) then
        authConfigs
      else
        authConfigs ++ [{ header := legacyHeaderName, value := a }]

/-- The effective legacy header name (`serverConfig.authHeader ||
DEFAULT_HEADERS.AUTHORIZATION` in `mergeAuthConfigs`), named so theorems can
refer to it. -/
def effectiveLegacyHeader (serverConfig : ServerConfig) : String :=
  match serverConfig.authHeader with
  | none => DEFAULT_AUTHORIZATION
  | some h => if h = "" then DEFAULT_AUTHORIZATION else h

/-! ## Claim C5 -/

/-- **C5 (amended).** `mergeAuthConfigs` returns the modern `authConfigs`
list in its given order (empty if absent); if a *non-empty* legacy auth value
is present and its effective header name (`authHeader` when present and
non-empty, otherwise `"Authorization"`) does not case-insensitively equal the
header of any existing entry, exactly one entry
`{header := legacyHeaderName, value := legacyAuthValue}` is appended at the
end; on a name collision the legacy entry is dropped entirely and the output
equals the modern list. -/
theorem mergeAuthConfigs_spec (cfg : ServerConfig) :
    (cfg.auth = none → mergeAuthConfigs cfg = cfg.authConfigs.getD [])
    ∧ (∀ a, cfg.auth = some a → a ≠ "" →
        mergeAuthConfigs cfg =
          (if (cfg.authConfigs.getD []).any
              (fun c => lowerStr c.header == lowerStr (effectiveLegacyHeader cfg)) then
            cfg.authConfigs.getD []
          else
            cfg.authConfigs.getD [] ++
              [{ header := effectiveLegacyHeader cfg, value := a }])) := by
  constructor
  · intro h
    simp [mergeAuthConfigs, h]
  · intro a ha hane
    simp only [mergeAuthConfigs, effectiveLegacyHeader, ha, if_neg hane]

/-- Witness for C5 at spec §8 Scenario D: legacy `auth="k"`,
`authHeader="X-Key"` merged with `authEntries=[{X-Key,"other"}]` yields
exactly the modern entry (legacy dropped on the case-insensitive collision). -/
theorem mergeAuthConfigs_spec_witness :
    mergeAuthConfigs
      { url := "https://example.com", auth := some "k", authHeader := some "X-Key",
        authConfigs := some [{ header := "X-Key", value := "other" }] } =
      [{ header := "X-Key", value := "other" }] := by
  have h := (mergeAuthConfigs_spec
    { url := "https://example.com", auth := some "k", authHeader := some "X-Key",
      authConfigs := some [{ header := "X-Key", value := "other" }] }).2 "k" rfl (by decide)
  rw [h]
  decide

/-- Counterexample to C5 as stated: the legacy value `""` *is* present (the
field is set) and its effective header name `"Authorization"` collides with no
modern entry, so the claim requires the merged list
`[{header := "Authorization", value := ""}]`; the code's JavaScript truthiness
check `if (serverConfig.auth)` treats the empty string as absent and returns
the empty modern list instead. -/
theorem mergeAuthConfigs_c5_counterexample :
    mergeAuthConfigs { url := "https://example.com", auth := some "" } = [] ∧
    mergeAuthConfigs { url := "https://example.com", auth := some "" } ≠
      [{ header := "Authorization", value := "" }] := by
  constructor <;> decide

/-! ## Config validation (src/config-validator.ts)

The log-only `context` strings built by the validator (they interpolate the
offending values and, in `validateAuthConfigs`, the entry index) are elided
from the `ErrorDetails` model; no decision in the pipeline reads them. -/

/-- The `ErrorDetails` from `src/types.ts` (minus the log-only `context`). -/
structure ErrorDetails where
  message : String
  status : Nat
  deriving DecidableEq, Repr

/-- The `ValidationResult` from `src/config-validator.ts`. -/
structure ValidationResult where
  isValid : Bool
  error : Option ErrorDetails := none
  deriving DecidableEq, Repr

/-- The non-alphanumeric characters admitted by the header-name token regex
`/^[a-zA-Z0-9!#$%&'*+.^_\x60|~-]+$/` of `validateAuthConfig`
(codepoints 39 and 96 are the apostrophe and the backquote). -/
def isTokenSpecialChar (c : Char) : Bool :=
  c == Char.ofNat 33 || c == Char.ofNat 35 || c == Char.ofNat 36 || c == Char.ofNat 37 ||
  c == Char.ofNat 38 || c == Char.ofNat 39 || c == Char.ofNat 42 || c == Char.ofNat 43 ||
  c == Char.ofNat 46 || c == Char.ofNat 94 || c == Char.ofNat 95 || c == Char.ofNat 96 ||
  c == Char.ofNat 124 || c == Char.ofNat 126 || c == Char.ofNat 45

/-- Full-string match of the header-name token regex. -/
def isTokenName (s : String) : Bool :=
  !s.data.isEmpty && s.data.all (fun c => c.isAlphanum || isTokenSpecialChar c)

/-- The `isValidHeaderValue` from `src/utils/auth-helpers.ts`: no control
characters (`\x00-\x08`, `\x0A-\x1F`, `\x7F`); tab and space are allowed. -/
def isValidHeaderValue (headerValue : String) : Bool :=
  !headerValue.data.any (fun c =>
    decide (c.toNat ≤ 8) || (decide (10 ≤ c.toNat) && decide (c.toNat ≤ 31)) ||
    c.toNat == 127)

/-- The `validateAuthConfig` from `src/config-validator.ts` (`!authConfig.header`
is the JavaScript falsy check, true for the empty string). -/
def validateAuthConfig (authConfig : AuthConfig) : ValidationResult :=
  if authConfig.header = "" || trimStr authConfig.header = "" then
    ⟨false, some ⟨"Configuration invalid: Auth header name cannot be empty.", 500⟩⟩
  else if !isTokenName authConfig.header then
    ⟨false, some ⟨"Configuration invalid: Auth header name contains invalid characters.", 500⟩⟩
  else if authConfig.value = "" || trimStr authConfig.value = "" then
    ⟨false, some ⟨"Configuration invalid: Auth header value cannot be empty.", 500⟩⟩
  else if !isValidHeaderValue authConfig.value then
    ⟨false, some ⟨"Configuration invalid: Auth header value contains invalid characters.", 500⟩⟩
  else
    ⟨true, none⟩

/-- The entry loop of `validateAuthConfigs`: first invalid entry wins. -/
def validateAuthConfigsGo : List AuthConfig → ValidationResult
  | [] => ⟨true, none⟩
  | a :: rest =>
    let v := validateAuthConfig a
    if v.isValid then validateAuthConfigsGo rest else v

/-- The `validateAuthConfigs` from `src/config-validator.ts`; an absent list is
valid (the `Array.isArray` guard is vacuous in the typed model). -/
def validateAuthConfigs : Option (List AuthConfig) → ValidationResult
  | none => ⟨true, none⟩
  | some l => validateAuthConfigsGo l

/-- The `validateAuthentication` from `src/config-validator.ts`. -/
def validateAuthentication (authConfigs : Option (List AuthConfig)) : ValidationResult :=
  validateAuthConfigs authConfigs

/-- The entry loop of `validateHeaders`; the `typeof headerValue !== 'string'`
check is vacuous in the typed model. -/
def validateHeadersGo : List (String × String) → ValidationResult
  | [] => ⟨true, none⟩
  | (headerName, _) :: rest =>
    if trimStr headerName = "" then
      ⟨false, some ⟨"Configuration invalid: Header names must be non-empty strings.", 500⟩⟩
    else
      validateHeadersGo rest

/-- The `validateHeaders` from `src/config-validator.ts`. -/
def validateHeaders : Option (List (String × String)) → ValidationResult
  | none => ⟨true, none⟩
  | some hs => validateHeadersGo hs

/-- Splits off the text before the first `://`, platform model for the WHATWG
URL parser's scheme/authority split. -/
def splitScheme : List Char → Option (List Char × List Char)
  | [] => none
  | ':' :: '/' :: '/' :: rest => some ([], rest)
  | c :: rest => (splitScheme rest).map (fun p => (c :: p.1, p.2))

/-- Platform collaborator model: the WHATWG `URL` constructor restricted to
what `validateBackendUrl` observes — the protocol (scheme plus `:`) and the
hostname — on ordinary `scheme://[userinfo@]host[:port][/path?query#frag]`
absolute URLs; `none` models the constructor throwing on input without a
scheme. -/
def parseUrl (s : String) : Option (String × String) :=
  match splitScheme s.data with
  | none => none
  | some (scheme, rest) =>
    if scheme.isEmpty then none
    else
      let authority := rest.takeWhile (fun c => !(c == '/' || c == '?' || c == '#'))
      let afterUserinfo := authority.foldl (fun acc c => if c == '@' then [] else acc ++ [c]) []
      let hostname := afterUserinfo.takeWhile (fun c => !(c == ':'))
      some (lowerStr (String.mk scheme) ++ ":", lowerStr (String.mk hostname))

/-- The `PROTOCOLS.HTTPS` from `src/constants.ts`. -/
def HTTPS_PROTOCOL : String := "https:"

/-- The `validateBackendUrl` from `src/config-validator.ts`: absolute URL,
`https:` protocol, non-empty hostname. -/
def validateBackendUrl (url : String) : ValidationResult :=
  match parseUrl url with
  | none =>
    ⟨false, some ⟨"Configuration invalid: Backend URL is malformed or insecure.", 500⟩⟩
  | some (protocol, hostname) =>
    if protocol ≠ HTTPS_PROTOCOL then
      ⟨false, some ⟨"Configuration invalid: Backend URL is malformed or insecure.", 500⟩⟩
    else if hostname = "" then
      ⟨false, some ⟨"Configuration invalid: Backend URL is malformed or insecure.", 500⟩⟩
    else
      ⟨true, none⟩

/-- The `validateProcessedConfig` from `src/config-validator.ts`: URL, then auth
configs, then headers; short-circuits on the first failure.  The legacy
`auth`/`authHeader` fields are not validated. -/
def validateProcessedConfig (config : ServerConfig) : ValidationResult :=
  let urlValidation := validateBackendUrl config.url
  if !urlValidation.isValid then
    urlValidation
  else
    let authValidation := validateAuthentication config.authConfigs
    if !authValidation.isValid then
      authValidation
    else
      let headersValidation := validateHeaders config.headers
      if !headersValidation.isValid then
        headersValidation
      else
        ⟨true, none⟩

/-! ## Claim C6 -/

/-- **C6 (amended).** For every `ServerConfig` that passes configuration
validation *and whose modern `authConfigs` list already has case-insensitively
distinct header names*, the list returned by `mergeAuthConfigs` contains no
two entries whose header names are equal under case-insensitive comparison:
the merge step never introduces a collision (the validator itself does not
check the modern list for duplicates, see the counterexample). -/
theorem mergeAuthConfigs_unique_of_distinct (cfg : ServerConfig)
    (hvalid : (validateProcessedConfig cfg).isValid = true)
    (hdist : (cfg.authConfigs.getD []).Pairwise
      (fun x y => lowerStr x.header ≠ lowerStr y.header)) :
    (mergeAuthConfigs cfg).Pairwise (fun x y => lowerStr x.header ≠ lowerStr y.header) := by
  clear hvalid
  unfold mergeAuthConfigs
  cases ha : cfg.auth with
  | none => exact hdist
  | some a =>
    by_cases hae : a = ""
    · simpa [hae] using hdist
    · simp only [if_neg hae]
      set legacyHeaderName :=
        match cfg.authHeader with
        | none => DEFAULT_AUTHORIZATION
        | some h => if h = "" then DEFAULT_AUTHORIZATION else h with hleg
      by_cases hcoll : (cfg.authConfigs.getD []).any
          (fun config => lowerStr config.header == lowerStr legacyHeaderName)
      · simpa [hcoll] using hdist
      · simp only [hcoll, Bool.false_eq_true, if_false]
        rw [List.pairwise_append]
        refine ⟨hdist, List.pairwise_singleton _ _, ?_⟩
        intro x hx y hy
        simp only [List.mem_singleton] at hy
        subst hy
        have := (List.any_eq_false).mp (Bool.not_eq_true _ |>.mp hcoll) x hx
        simpa using this

/-- Witness for C6: a validated config with distinct modern entries and a
colliding legacy entry still merges to a duplicate-free list. -/
theorem mergeAuthConfigs_unique_of_distinct_witness :
    (mergeAuthConfigs
      { url := "https://example.com", auth := some "k", authHeader := some "x-key",
        authConfigs := some [{ header := "X-Key", value := "other" }] }).Pairwise
      (fun x y => lowerStr x.header ≠ lowerStr y.header) :=
  mergeAuthConfigs_unique_of_distinct _ (by decide) (by decide)

/-- Counterexample to C6 as stated: a config whose modern list holds `X-Key`
and `x-key` passes `validateProcessedConfig` unchanged (the validator checks
each entry in isolation and never compares header names), yet the merged list
contains two entries with case-insensitively equal names. -/
theorem mergeAuthConfigs_c6_counterexample :
    (validateProcessedConfig
      { url := "https://example.com",
        authConfigs := some [{ header := "X-Key", value := "a" },
          { header := "x-key", value := "b" }] }).isValid = true ∧
    ¬ (mergeAuthConfigs
      { url := "https://example.com",
        authConfigs := some [{ header := "X-Key", value := "a" },
          { header := "x-key", value := "b" }] }).Pairwise
      (fun x y => lowerStr x.header ≠ lowerStr y.header) := by
  constructor
  · decide
  · decide

/-! ## Secret interpolation (src/secret-interpolation.ts)

`interpolateSecret` is `value.replace(/\$\x7b([\w-]+)\x7d/g, cb)`: the
JavaScript regular-expression engine scans left to right for non-overlapping
matches of `$\x7b NAME \x7d` with `NAME` a non-empty run of `[A-Za-z0-9_-]`,
and the callback substitutes the secret (without rescanning the substituted
text), throws in auth (strict) mode when the secret is missing, and keeps the
literal placeholder otherwise.  The scanner below models the engine: at a
`$\x7b` that is not completed by a name and closing brace no match can begin
at the `$` or the `\x7b` (every match starts with `$\x7b`), so the scanner
emits both characters and resumes; this is exactly where the engine's
single-character advance ends up.  Thrown exceptions are modelled by
`Except.error`. -/

/-- A character of the placeholder-name class `[\w-]` = `[A-Za-z0-9_-]`. -/
def isSecretNameChar (c : Char) : Bool :=
  c.isAlphanum || c == '_' || c == '-'

/-- Longest prefix of name characters and the remaining suffix (the greedy
`[\w-]+` step of the pattern). -/
def spanSecretName : List Char → List Char × List Char
  | [] => ([], [])
  | c :: rest =>
    if isSecretNameChar c then
      let r := spanSecretName rest
      (c :: r.1, r.2)
    else
      ([], c :: rest)

theorem spanSecretName_snd_length (l : List Char) :
    (spanSecretName l).2.length ≤ l.length := by
  induction l with
  | nil => simp [spanSecretName]
  | cons c rest ih =>
    by_cases h : isSecretNameChar c
    · simp only [spanSecretName, if_pos h]
      exact Nat.le_succ_of_le ih
    · simp [spanSecretName, if_neg h]

theorem spanSecretName_append_of_name (name : List Char) (tail : List Char)
    (hname : ∀ c ∈ name, isSecretNameChar c = true)
    (htail : ∀ c0 rest0, tail = c0 :: rest0 → isSecretNameChar c0 = false) :
    spanSecretName (name ++ tail) = (name, tail) := by
  induction name with
  | nil =>
    cases tail with
    | nil => simp [spanSecretName]
    | cons c0 rest0 => simp [spanSecretName, htail c0 rest0 rfl]
  | cons c rest ih =>
    have hc : isSecretNameChar c = true := hname c (by simp)
    simp only [List.cons_append, spanSecretName, if_pos hc, List.append_eq]
    rw [ih (fun d hd => hname d (by simp [hd]))]

/-- The regex-engine scanner underlying `interpolateSecret`, over character
lists.  `secrets` is the worker environment's secret lookup
(`env[secretName]`), `isAuth` the strict flag. -/
def interpolateGo (secrets : String → Option String) (isAuth : Bool) :
    List Char → Except String (List Char)
  | [] => .ok []
  | '$' :: '{' :: rest =>
    match hs : spanSecretName rest with
    | (name, more) =>
      match more with
      | '}' :: after =>
        if name.isEmpty then
          -- `$\x7b\x7d`: no match can start at the `$` or the brace.
          (interpolateGo secrets isAuth rest).map (fun t => '$' :: '{' :: t)
        else
          match secrets (String.mk name) with
          | some secretValue =>
            (interpolateGo secrets isAuth after).map (fun t => secretValue.data ++ t)
          | none =>
            if isAuth then
              .error ("Missing required secret: " ++ String.mk name)
            else
              (interpolateGo secrets isAuth after).map
                (fun t => '$' :: '{' :: (name ++ '}' :: t))
      | _ =>
        -- Unterminated placeholder: no match starts at the `$` or the brace.
        (interpolateGo secrets isAuth rest).map (fun t => '$' :: '{' :: t)
  | c :: cs =>
    (interpolateGo secrets isAuth cs).map (fun t => c :: t)
  termination_by l => l.length
  decreasing_by
  all_goals first
  | (simp only [List.length_cons]; omega)
  | (have h1 := spanSecretName_snd_length rest
     rw [hs] at h1
     simp at h1 ⊢
     omega)

/-- The `interpolateSecret` from `src/secret-interpolation.ts`. -/
def interpolateSecret (value : String) (secrets : String → Option String)
    (isAuth : Bool) : Except String String :=
  (interpolateGo secrets isAuth value.data).map String.mk

/-- The `extractSecretNames` from `src/secret-interpolation.ts`: the names of all
placeholder matches, found by the same scan as `interpolateSecret`. -/
def extractGo : List Char → List String
  | [] => []
  | '$' :: '{' :: rest =>
    match hs : spanSecretName rest with
    | (name, more) =>
      match more with
      | '}' :: after =>
        if name.isEmpty then
          extractGo rest
        else
          String.mk name :: extractGo after
      | _ => extractGo rest
  | _ :: cs => extractGo cs
  termination_by l => l.length
  decreasing_by
  all_goals first
  | (simp only [List.length_cons]; omega)
  | (have h1 := spanSecretName_snd_length rest
     rw [hs] at h1
     simp at h1 ⊢
     omega)

/-- The `extractSecretNames` from `src/secret-interpolation.ts`. -/
def extractSecretNames (value : String) : List String :=
  extractGo value.data

/-- The `validateSecretsAvailable` from `src/secret-interpolation.ts`. -/
def validateSecretsAvailable (secretNames : List String)
    (secrets : String → Option String) : Bool :=
  secretNames.all (fun secretName => (secrets secretName).isSome)

/-! ### Unfolding lemmas for the scanner -/

theorem interpolateGo_placeholder (secrets : String → Option String) (isAuth : Bool)
    (rest name after : List Char) (hspan : spanSecretName rest = (name, '}' :: after))
    (hne : name.isEmpty = false) :
    interpolateGo secrets isAuth ('$' :: '{' :: rest) =
      match secrets (String.mk name) with
      | some secretValue =>
        (interpolateGo secrets isAuth after).map (fun t => secretValue.data ++ t)
      | none =>
        if isAuth = true then
          .error ("Missing required secret: " ++ String.mk name)
        else
          (interpolateGo secrets isAuth after).map (fun t => '$' :: '{' :: (name ++ '}' :: t)) := by
  rw [interpolateGo.eq_2]
  split
  rename_i name' more' heq
  rw [hspan] at heq
  injection heq with h1 h2
  subst h1
  subst h2
  split
  · rename_i after' x y z
    injection y with y1 y2
    subst y2
    simp [hne]
  · rename_i x y z
    exact ((z after hspan rfl (proof_irrel_heq _ _))).elim

theorem interpolateGo_skip_empty (secrets : String → Option String) (isAuth : Bool)
    (rest name after : List Char) (hspan : spanSecretName rest = (name, '}' :: after))
    (hempty : name.isEmpty = true) :
    interpolateGo secrets isAuth ('$' :: '{' :: rest) =
      (interpolateGo secrets isAuth rest).map (fun t => '$' :: '{' :: t) := by
  rw [interpolateGo.eq_2]
  split
  rename_i name' more' heq
  rw [hspan] at heq
  injection heq with h1 h2
  subst h1
  subst h2
  split
  · rename_i after' x y z
    injection y with y1 y2
    subst y2
    simp [hempty]
  · rename_i x y z
    exact ((z after hspan rfl (proof_irrel_heq _ _))).elim

theorem interpolateGo_skip_unterminated (secrets : String → Option String) (isAuth : Bool)
    (rest name : List Char) (more : List Char)
    (hspan : spanSecretName rest = (name, more))
    (hmore : ∀ after : List Char, more ≠ '}' :: after) :
    interpolateGo secrets isAuth ('$' :: '{' :: rest) =
      (interpolateGo secrets isAuth rest).map (fun t => '$' :: '{' :: t) := by
  rw [interpolateGo.eq_2]
  split
  rename_i name' more' heq
  rw [hspan] at heq
  injection heq with h1 h2
  subst h1
  subst h2
  split
  · rename_i after'
    exact absurd rfl (hmore after')
  · rfl

theorem extractGo_placeholder (rest name after : List Char)
    (hspan : spanSecretName rest = (name, '}' :: after)) (hne : name.isEmpty = false) :
    extractGo ('$' :: '{' :: rest) = String.mk name :: extractGo after := by
  rw [extractGo.eq_2]
  split
  rename_i name' more' heq
  rw [hspan] at heq
  injection heq with h1 h2
  subst h1
  subst h2
  split
  · rename_i after' x y z
    injection y with y1 y2
    subst y2
    simp [hne]
  · rename_i x y z
    exact ((z after hspan rfl (proof_irrel_heq _ _))).elim

theorem extractGo_skip_empty (rest name after : List Char)
    (hspan : spanSecretName rest = (name, '}' :: after)) (hempty : name.isEmpty = true) :
    extractGo ('$' :: '{' :: rest) = extractGo rest := by
  rw [extractGo.eq_2]
  split
  rename_i name' more' heq
  rw [hspan] at heq
  injection heq with h1 h2
  subst h1
  subst h2
  split
  · rename_i after' x y z
    injection y with y1 y2
    subst y2
    simp [hempty]
  · rename_i x y z
    exact ((z after hspan rfl (proof_irrel_heq _ _))).elim

theorem extractGo_skip_unterminated (rest name : List Char) (more : List Char)
    (hspan : spanSecretName rest = (name, more))
    (hmore : ∀ after : List Char, more ≠ '}' :: after) :
    extractGo ('$' :: '{' :: rest) = extractGo rest := by
  rw [extractGo.eq_2]
  split
  rename_i name' more' heq
  rw [hspan] at heq
  injection heq with h1 h2
  subst h1
  subst h2
  split
  · rename_i after'
    exact absurd rfl (hmore after')
  · rfl

/-! ### Behavioural lemmas -/

/-- Non-strict (`isAuth = false`) interpolation never fails. -/
theorem interpolateGo_nonstrict_ok (secrets : String → Option String) (l : List Char) :
    ∃ t, interpolateGo secrets false l = .ok t := by
  induction l using interpolateGo.induct secrets false with
  | case1 => exact ⟨[], interpolateGo.eq_1 secrets false⟩
  | case2 rest name after hspan hempty hspan2 ih =>
    obtain ⟨t, ht⟩ := ih
    exact ⟨'$' :: '{' :: t, by
      rw [interpolateGo_skip_empty secrets false rest name after hspan hempty, ht]; rfl⟩
  | case3 rest name after hspan hne v hv hspan2 ih =>
    obtain ⟨t, ht⟩ := ih
    refine ⟨v.data ++ t, ?_⟩
    rw [interpolateGo_placeholder secrets false rest name after hspan
      (Bool.not_eq_true _ |>.mp hne), hv, ht]
    rfl
  | case4 rest name after hspan hne hv hfalse =>
    exact absurd hfalse (by decide)
  | case5 rest name after hspan hne hv htrue hspan2 ih =>
    obtain ⟨t, ht⟩ := ih
    refine ⟨'$' :: '{' :: (name ++ '}' :: t), ?_⟩
    rw [interpolateGo_placeholder secrets false rest name after hspan
      (Bool.not_eq_true _ |>.mp hne), hv, ht]
    rfl
  | case6 rest name more hspan hs hmore ih =>
    obtain ⟨t, ht⟩ := ih
    refine ⟨'$' :: '{' :: t, ?_⟩
    rw [interpolateGo_skip_unterminated secrets false rest name more hspan ?_, ht]
    · rfl
    · intro after hafter
      exact hmore after (hafter ▸ hs) hafter (by subst hafter; rfl)
  | case7 c cs hnot ih =>
    obtain ⟨t, ht⟩ := ih
    refine ⟨c :: t, ?_⟩
    rw [interpolateGo.eq_3 secrets false c cs hnot, ht]
    rfl

/-- Strict (`isAuth = true`) interpolation fails whenever one of the
extracted placeholder names has no secret. -/
theorem interpolateGo_strict_error_of_missing (secrets : String → Option String)
    (l : List Char) (h : ∃ n ∈ extractGo l, secrets n = none) :
    ∃ e, interpolateGo secrets true l = .error e := by
  induction l using extractGo.induct with
  | case1 =>
    obtain ⟨n, hn, _⟩ := h
    rw [extractGo.eq_1] at hn
    simp at hn
  | case2 rest name after hspan hempty hspan2 ih =>
    rw [extractGo_skip_empty rest name after hspan hempty] at h
    obtain ⟨e, he⟩ := ih h
    exact ⟨e, by rw [interpolateGo_skip_empty secrets true rest name after hspan hempty, he]; rfl⟩
  | case3 rest name after hspan hne hspan2 ih =>
    have hne' : name.isEmpty = false := Bool.not_eq_true _ |>.mp hne
    rw [extractGo_placeholder rest name after hspan hne'] at h
    cases hv : secrets (String.mk name) with
    | none =>
      refine ⟨"Missing required secret: " ++ String.mk name, ?_⟩
      rw [interpolateGo_placeholder secrets true rest name after hspan hne', hv]
      rfl
    | some v =>
      have h' : ∃ n ∈ extractGo after, secrets n = none := by
        obtain ⟨n, hn, hnone⟩ := h
        rcases List.mem_cons.mp hn with heq | hmem
        · rw [heq] at hnone
          rw [hnone] at hv
          cases hv
        · exact ⟨n, hmem, hnone⟩
      obtain ⟨e, he⟩ := ih h'
      refine ⟨e, ?_⟩
      rw [interpolateGo_placeholder secrets true rest name after hspan hne', hv, he]
      rfl
  | case4 rest name more hspan hs hmore ih =>
    have hmore' : ∀ after : List Char, more ≠ '}' :: after := by
      intro after hafter
      exact hmore after (hafter ▸ hs) hafter (by subst hafter; rfl)
    rw [extractGo_skip_unterminated rest name more hspan hmore'] at h
    obtain ⟨e, he⟩ := ih h
    exact ⟨e, by
      rw [interpolateGo_skip_unterminated secrets true rest name more hspan hmore', he]; rfl⟩
  | case5 c cs hnot ih =>
    rw [extractGo.eq_3 c cs hnot] at h
    obtain ⟨e, he⟩ := ih h
    exact ⟨e, by rw [interpolateGo.eq_3 secrets true c cs hnot, he]; rfl⟩

/-! ## Claim C8 -/

/-- **C8.** Non-strict interpolation never fails: the scan is a single
left-to-right pass in which a placeholder whose name is bound in the secret
map is replaced by the secret value (the substituted text is not rescanned —
the pass continues after the placeholder), and a placeholder whose name is
absent is left literally in place while processing continues. -/
theorem interpolateSecret_nonstrict_spec :
    (∀ (s : String) (secrets : String → Option String),
      ∃ t, interpolateSecret s secrets false = .ok t)
    ∧ (∀ (name rest : String) (secrets : String → Option String) (v : String),
        name.data ≠ [] → (∀ c ∈ name.data, isSecretNameChar c = true) →
        secrets name = some v →
        interpolateSecret ("$\x7b" ++ name ++ "\x7d" ++ rest) secrets false =
          (interpolateSecret rest secrets false).map (fun t => v ++ t))
    ∧ (∀ (name rest : String) (secrets : String → Option String),
        name.data ≠ [] → (∀ c ∈ name.data, isSecretNameChar c = true) →
        secrets name = none →
        interpolateSecret ("$\x7b" ++ name ++ "\x7d" ++ rest) secrets false =
          (interpolateSecret rest secrets false).map
            (fun t => "$\x7b" ++ name ++ "\x7d" ++ t)) := by
  have hdata : ∀ (name rest : String),
      ("$\x7b" ++ name ++ "\x7d" ++ rest).data =
        '$' :: '{' :: (name.data ++ '}' :: rest.data) := by
    intro name rest
    simp [String.data_append]
  have hspan : ∀ (name rest : String), (∀ c ∈ name.data, isSecretNameChar c = true) →
      spanSecretName (name.data ++ '}' :: rest.data) = (name.data, '}' :: rest.data) := by
    intro name rest hchars
    refine spanSecretName_append_of_name name.data ('}' :: rest.data) hchars ?_
    intro c0 rest0 h
    injection h with h1 _
    subst h1
    decide
  refine ⟨?_, ?_, ?_⟩
  · intro s secrets
    obtain ⟨t, ht⟩ := interpolateGo_nonstrict_ok secrets s.data
    exact ⟨String.mk t, by rw [interpolateSecret, ht]; rfl⟩
  · intro name rest secrets v hne hchars hv
    have hne' : name.data.isEmpty = false := by
      cases hd : name.data with
      | nil => exact absurd hd hne
      | cons c cs => rfl
    unfold interpolateSecret
    rw [hdata name rest,
      interpolateGo_placeholder secrets false _ name.data rest.data (hspan name rest hchars) hne']
    have heta : (String.mk name.data) = name := rfl
    rw [heta, hv]
    obtain ⟨t, ht⟩ := interpolateGo_nonstrict_ok secrets rest.data
    rw [ht]
    rfl
  · intro name rest secrets hne hchars hv
    have hne' : name.data.isEmpty = false := by
      cases hd : name.data with
      | nil => exact absurd hd hne
      | cons c cs => rfl
    unfold interpolateSecret
    rw [hdata name rest,
      interpolateGo_placeholder secrets false _ name.data rest.data (hspan name rest hchars) hne']
    have heta : (String.mk name.data) = name := rfl
    rw [heta, hv]
    obtain ⟨t, ht⟩ := interpolateGo_nonstrict_ok secrets rest.data
    rw [ht]
    simp only [Except.map]
    have hd : ('$' :: '{' :: (name.data ++ '}' :: t)) =
        ("$\x7b" ++ name ++ "\x7d" ++ String.mk t).data := by
      simp [String.data_append]
    rw [hd]
    rfl

/-- A concrete secret map used by witnesses: `TOKEN ↦ s3cr3t`, all other
names unbound. -/
def sampleSecrets : String → Option String :=
  fun n => if n = "TOKEN" then some "s3cr3t" else none

/-- Witness for C8: a bound placeholder is substituted, an unbound one is kept
literally, both in non-strict mode and without failing. -/
theorem interpolateSecret_nonstrict_spec_witness :
    interpolateSecret ("$\x7b" ++ "TOKEN" ++ "\x7d" ++ "") sampleSecrets false =
      .ok "s3cr3t" ∧
    interpolateSecret ("$\x7b" ++ "MISSING" ++ "\x7d" ++ "") sampleSecrets false =
      .ok ("$\x7b" ++ "MISSING" ++ "\x7d" ++ "") := by
  have hempty : interpolateSecret "" sampleSecrets false = .ok "" := by
    rw [interpolateSecret, show ("" : String).data = [] from rfl, interpolateGo.eq_1]
    rfl
  constructor
  · rw [interpolateSecret_nonstrict_spec.2.1 "TOKEN" "" sampleSecrets "s3cr3t"
      (by decide) (by decide) (by simp [sampleSecrets]), hempty]
    rfl
  · rw [interpolateSecret_nonstrict_spec.2.2 "MISSING" "" sampleSecrets
      (by decide) (by decide) (by simp [sampleSecrets]), hempty]
    rfl

/-- Strict interpolation fails when some referenced secret name (as computed
by the source's own `extractSecretNames`) is unavailable. -/
theorem interpolateSecret_strict_error (value : String) (secrets : String → Option String)
    (h : validateSecretsAvailable (extractSecretNames value) secrets = false) :
    ∃ e, interpolateSecret value secrets true = .error e := by
  have hmem : ∃ n ∈ extractGo value.data, secrets n = none := by
    unfold validateSecretsAvailable extractSecretNames at h
    rw [List.all_eq_false] at h
    obtain ⟨n, hn, hfalse⟩ := h
    refine ⟨n, hn, ?_⟩
    cases hv : secrets n with
    | none => rfl
    | some v => rw [hv] at hfalse; simp at hfalse
  obtain ⟨e, he⟩ := interpolateGo_strict_error_of_missing secrets value.data hmem
  exact ⟨e, by rw [interpolateSecret, he]; rfl⟩

/-! ## Header processor (src/header-processor.ts, src/utils/auth-helpers.ts) -/

/-- The `createHeaderExclusionSet` from `src/utils/auth-helpers.ts`: the `Set` of
lowercase auth header names, modelled as the list of lowercase names
(`Set.has` = list membership; duplicates in the list do not change
membership). -/
def createHeaderExclusionSet (authConfigs : List AuthConfig) : List String :=
  authConfigs.map (fun config => lowerStr config.header)

/-- The `createHeadersExcluding` from `src/utils/auth-helpers.ts`: copy every
header whose lowercase name is not excluded into a fresh `Headers` object via
`set`, in iteration order. -/
def createHeadersExcluding (originalHeaders : HeaderMap)
    (excludeHeaders : List String) : HeaderMap :=
  originalHeaders.foldl (fun modifiedHeaders p =>
    if excludeHeaders.contains (lowerStr p.1) then
      modifiedHeaders
    else
      headersSet modifiedHeaders p.1 p.2) []

/-- The `createHeadersWithoutAuth` from `src/header-processor.ts`. -/
def createHeadersWithoutAuth (originalHeaders : HeaderMap)
    (authConfigs : List AuthConfig) : HeaderMap :=
  createHeadersExcluding originalHeaders (createHeaderExclusionSet authConfigs)

/-- The `addCustomHeaders` from `src/header-processor.ts`: add each configured
header only if no header with that (case-insensitive) name already exists.
The caller always passes an object (`serverConfig.headers || \x7b\x7d`), so the
`if (!customHeaders)` guard is vacuous in the model. -/
def addCustomHeaders (modifiedHeaders : HeaderMap)
    (customHeaders : List (String × String)) : HeaderMap :=
  customHeaders.foldl (fun h p =>
    if headersHas h p.1 then h else headersSet h p.1 p.2) modifiedHeaders

/-- The `processHeadersForProxy` from `src/header-processor.ts`: strip the union
of global and merged per-server auth header names, then layer in the
configured custom headers. -/
def processHeadersForProxy (originalHeaders : HeaderMap) (serverConfig : ServerConfig)
    (globalAuthConfigs : List AuthConfig) : HeaderMap :=
  let perServerAuthConfigs := mergeAuthConfigs serverConfig
  let allAuthConfigs := globalAuthConfigs ++ perServerAuthConfigs
  let processedHeaders :=
    if allAuthConfigs.length > 0 then
      createHeadersWithoutAuth originalHeaders allAuthConfigs
    else
      createHeadersWithoutAuth originalHeaders []
  addCustomHeaders processedHeaders (serverConfig.headers.getD [])

/-- The Header-Processor transformation of spec §4.4 steps 2–3 as a single
function of the exclusion set and the configured headers (the form quantified
over in the idempotence property of spec §8). -/
def headerTransform (excludeHeaders : List String)
    (customHeaders : List (String × String)) (h : HeaderMap) : HeaderMap :=
  addCustomHeaders (createHeadersExcluding h excludeHeaders) customHeaders

/-! ### Basic lemmas about the headers model -/

theorem find?_filter_of_excluded {α : Type} (l : List α) (q p : α → Bool)
    (h : ∀ a ∈ l, q a = false → p a = false) :
    (l.filter q).find? p = l.find? p := by
  induction l with
  | nil => rfl
  | cons a t ih =>
    rw [List.filter_cons]
    by_cases hq : q a = true
    · rw [if_pos hq, List.find?_cons, List.find?_cons]
      cases hp : p a
      · exact ih (fun b hb hbq => h b (List.mem_cons_of_mem a hb) hbq)
      · rfl
    · have hq' : q a = false := by simpa using hq
      have hpa : p a = false := h a (List.mem_cons_self a t) hq'
      rw [if_neg (by simp [hq']), List.find?_cons, hpa]
      exact ih (fun b hb hbq => h b (List.mem_cons_of_mem a hb) hbq)

theorem headersGet_congr (h : HeaderMap) (n m : String)
    (hnm : lowerStr n = lowerStr m) : headersGet h n = headersGet h m := by
  unfold headersGet
  rw [hnm]

theorem headersHas_congr (h : HeaderMap) (n m : String)
    (hnm : lowerStr n = lowerStr m) : headersHas h n = headersHas h m := by
  unfold headersHas
  rw [headersGet_congr h n m hnm]

theorem headersGet_removeAll_ne (h : HeaderMap) (n m : String)
    (hne : lowerStr n ≠ lowerStr m) :
    headersGet (headersRemoveAll h n) m = headersGet h m := by
  unfold headersGet headersRemoveAll
  rw [find?_filter_of_excluded]
  intro p hp hq
  have hpn : lowerStr p.1 = lowerStr n := by simpa using hq
  simp [hpn]
  exact hne

theorem headersGet_set (h : HeaderMap) (n v m : String) :
    headersGet (headersSet h n v) m =
      if lowerStr n = lowerStr m then some v else headersGet h m := by
  induction h with
  | nil =>
    unfold headersSet headersGet
    by_cases hm : lowerStr n = lowerStr m
    · have hb : (lowerStr ((n, v)).1 == lowerStr m) = true := by simp [hm]
      simp [List.find?_cons, hb, hm]
    · have hb : (lowerStr ((n, v)).1 == lowerStr m) = false := by
        simp only [beq_eq_false_iff_ne, ne_eq]
        exact hm
      simp [List.find?_cons, hb, hm]
  | cons p rest ih =>
    unfold headersSet
    by_cases hp : (lowerStr p.1 == lowerStr n) = true
    · rw [if_pos hp]
      have hpn : lowerStr p.1 = lowerStr n := by simpa using hp
      by_cases hm : lowerStr n = lowerStr m
      · have hhead : (lowerStr ((p.1, v)).1 == lowerStr m) = true := by
          simp [hpn, hm]
        unfold headersGet
        rw [List.find?_cons, hhead, if_pos hm]
        rfl
      · have hhead : (lowerStr ((p.1, v)).1 == lowerStr m) = false := by
          simp [hpn]
          exact hm
        unfold headersGet
        rw [List.find?_cons, hhead, if_neg hm]
        have htail := headersGet_removeAll_ne rest n m hm
        unfold headersGet at htail
        rw [htail, List.find?_cons]
        have hhead2 : (lowerStr p.1 == lowerStr m) = false := by
          simp [hpn]
          exact hm
        rw [hhead2]
    · have hp' : (lowerStr p.1 == lowerStr n) = false := by simpa using hp
      rw [if_neg (by simp [hp'])]
      by_cases hm2 : (lowerStr p.1 == lowerStr m) = true
      · have hpm : lowerStr p.1 = lowerStr m := by simpa using hm2
        have hnm : lowerStr n ≠ lowerStr m := by
          intro hc
          rw [← hc] at hpm
          simp [hpm] at hp'
        unfold headersGet
        rw [List.find?_cons, hm2, if_neg hnm, List.find?_cons, hm2]
      · have hm2' : (lowerStr p.1 == lowerStr m) = false := by simpa using hm2
        unfold headersGet
        rw [List.find?_cons, hm2']
        unfold headersGet at ih
        rw [ih]
        by_cases hnm : lowerStr n = lowerStr m
        · rw [if_pos hnm, if_pos hnm]
        · rw [if_neg hnm, if_neg hnm, List.find?_cons, hm2']

theorem headersHas_set (h : HeaderMap) (n v m : String) :
    headersHas (headersSet h n v) m =
      ((lowerStr n == lowerStr m) || headersHas h m) := by
  unfold headersHas
  rw [headersGet_set]
  by_cases hnm : lowerStr n = lowerStr m
  · simp [hnm]
  · simp [hnm]

theorem headersSet_of_not_has (h : HeaderMap) (n v : String)
    (hno : headersHas h n = false) : headersSet h n v = h ++ [(n, v)] := by
  induction h with
  | nil => rfl
  | cons p rest ih =>
    have hhead : (lowerStr p.1 == lowerStr n) = false := by
      unfold headersHas headersGet at hno
      rw [List.find?_cons] at hno
      by_cases hc : (lowerStr p.1 == lowerStr n) = true
      · rw [hc] at hno
        simp at hno
      · simpa using hc
    have hrest : headersHas rest n = false := by
      unfold headersHas headersGet at hno ⊢
      rw [List.find?_cons, hhead] at hno
      exact hno
    unfold headersSet
    rw [if_neg (by simp [hhead]), ih hrest]
    rfl

theorem headersHas_false_iff (h : HeaderMap) (n : String) :
    headersHas h n = false ↔ ∀ p ∈ h, (lowerStr p.1 == lowerStr n) = false := by
  unfold headersHas headersGet
  constructor
  · intro hf p hp
    cases hfind : List.find? (fun p => lowerStr p.1 == lowerStr n) h with
    | none =>
      have := List.find?_eq_none.mp hfind p hp
      simpa using this
    | some q =>
      rw [hfind] at hf
      simp at hf
  · intro hall
    have hnone : List.find? (fun p => lowerStr p.1 == lowerStr n) h = none :=
      List.find?_eq_none.mpr (fun x hx => by simp [hall x hx])
    rw [hnone]
    rfl

theorem mem_headersSet (h : HeaderMap) (n v : String) (q : String × String)
    (hq : q ∈ headersSet h n v) : lowerStr q.1 = lowerStr n ∨ q ∈ h := by
  induction h with
  | nil =>
    unfold headersSet at hq
    rcases List.mem_singleton.mp hq with h1
    rw [h1]
    exact Or.inl rfl
  | cons p rest ih =>
    unfold headersSet at hq
    by_cases hp : (lowerStr p.1 == lowerStr n) = true
    · rw [if_pos hp] at hq
      rcases List.mem_cons.mp hq with h1 | h2
      · rw [h1]
        exact Or.inl (by simpa using hp)
      · have : q ∈ rest := List.mem_of_mem_filter h2
        exact Or.inr (List.mem_cons_of_mem p this)
    · rw [if_neg (by simpa using hp)] at hq
      rcases List.mem_cons.mp hq with h1 | h2
      · exact Or.inr (h1 ▸ List.mem_cons_self p rest)
      · rcases ih h2 with h3 | h4
        · exact Or.inl h3
        · exact Or.inr (List.mem_cons_of_mem p h4)

/-- Case-insensitive name-uniqueness of a header list (the shape every
`Headers` object built through `set` has). -/
abbrev ClassUnique (h : HeaderMap) : Prop :=
  h.Pairwise (fun p q => lowerStr p.1 ≠ lowerStr q.1)

theorem headersHas_append (a b : HeaderMap) (n : String) :
    headersHas (a ++ b) n = (headersHas a n || headersHas b n) := by
  induction a with
  | nil => simp [headersHas, headersGet]
  | cons p rest ih =>
    unfold headersHas headersGet at *
    rw [List.cons_append, List.find?_cons, List.find?_cons]
    cases hp : (lowerStr p.1 == lowerStr n) <;> simp [hp, ih]

theorem classUnique_set (h : HeaderMap) (n v : String) (hcu : ClassUnique h) :
    ClassUnique (headersSet h n v) := by
  induction h with
  | nil => simp [headersSet]
  | cons p rest ih =>
    obtain ⟨hp, hrest⟩ := List.pairwise_cons.mp hcu
    unfold headersSet
    by_cases hc : (lowerStr p.1 == lowerStr n) = true
    · rw [if_pos hc]
      refine List.pairwise_cons.mpr ⟨?_, ?_⟩
      · intro q hq
        exact hp q (List.mem_of_mem_filter hq)
      · exact List.Pairwise.sublist (List.filter_sublist _) hrest
    · rw [if_neg (by simpa using hc)]
      refine List.pairwise_cons.mpr ⟨?_, ?_⟩
      · intro q hq
        rcases mem_headersSet rest n v q hq with h1 | h2
        · intro hcontra
          exact hc (by simp [hcontra, h1])
        · exact hp q h2
      · exact ih hrest

theorem createHeadersExcluding_get_excluded (h : HeaderMap) (excl : List String)
    (n : String) (hn : excl.contains (lowerStr n) = true) :
    headersGet (createHeadersExcluding h excl) n = none := by
  suffices haux : ∀ acc, headersGet acc n = none →
      headersGet (h.foldl (fun m p =>
        if excl.contains (lowerStr p.1) then m else headersSet m p.1 p.2) acc) n = none by
    exact haux [] rfl
  induction h with
  | nil =>
    intro acc hacc
    exact hacc
  | cons p rest ih =>
    intro acc hacc
    rw [List.foldl_cons]
    by_cases hc : excl.contains (lowerStr p.1) = true
    · simp only [hc, if_true]
      exact ih acc hacc
    · have hc' : excl.contains (lowerStr p.1) = false := by simpa using hc
      simp only [hc', Bool.false_eq_true, if_false]
      refine ih (headersSet acc p.1 p.2) ?_
      have hne : lowerStr p.1 ≠ lowerStr n := by
        intro hcontra
        rw [hcontra, hn] at hc'
        cases hc'
      rw [headersGet_set, if_neg hne]
      exact hacc

theorem classUnique_createHeadersExcluding (h : HeaderMap) (excl : List String) :
    ClassUnique (createHeadersExcluding h excl) := by
  suffices haux : ∀ acc, ClassUnique acc →
      ClassUnique (h.foldl (fun m p =>
        if excl.contains (lowerStr p.1) then m else headersSet m p.1 p.2) acc) by
    exact haux [] (by simp)
  induction h with
  | nil =>
    intro acc hacc
    exact hacc
  | cons p rest ih =>
    intro acc hacc
    rw [List.foldl_cons]
    by_cases hc : excl.contains (lowerStr p.1) = true
    · simp only [hc, if_true]
      exact ih acc hacc
    · have hc' : excl.contains (lowerStr p.1) = false := by simpa using hc
      simp only [hc', Bool.false_eq_true, if_false]
      exact ih (headersSet acc p.1 p.2) (classUnique_set acc p.1 p.2 hacc)

theorem classUnique_addCustomHeaders (h : HeaderMap) (cfg : List (String × String))
    (hcu : ClassUnique h) : ClassUnique (addCustomHeaders h cfg) := by
  induction cfg generalizing h with
  | nil => exact hcu
  | cons p rest ih =>
    unfold addCustomHeaders at *
    rw [List.foldl_cons]
    by_cases hc : headersHas h p.1 = true
    · simp only [hc, if_true]
      exact ih h hcu
    · have hc' : headersHas h p.1 = false := by simpa using hc
      simp only [hc', Bool.false_eq_true, if_false]
      exact ih (headersSet h p.1 p.2) (classUnique_set h p.1 p.2 hcu)

theorem createHeadersExcluding_eq_filter (h : HeaderMap) (excl : List String)
    (hcu : ClassUnique h) :
    createHeadersExcluding h excl =
      h.filter (fun p => !(excl.contains (lowerStr p.1))) := by
  suffices haux : ∀ (l : HeaderMap), ClassUnique l →
      ∀ acc, (∀ p ∈ l, headersHas acc p.1 = false) →
      l.foldl (fun m p =>
        if excl.contains (lowerStr p.1) then m else headersSet m p.1 p.2) acc =
        acc ++ l.filter (fun p => !(excl.contains (lowerStr p.1))) by
    have := haux h hcu [] (fun p _ => rfl)
    simpa [createHeadersExcluding] using this
  intro l hl
  induction l with
  | nil =>
    intro acc _
    simp
  | cons p rest ih =>
    intro acc hacc
    obtain ⟨hp, hrest⟩ := List.pairwise_cons.mp hl
    rw [List.foldl_cons, List.filter_cons]
    by_cases hc : excl.contains (lowerStr p.1) = true
    · simp only [hc, if_true, Bool.not_true, Bool.false_eq_true, if_false]
      exact ih hrest acc (fun q hq => hacc q (List.mem_cons_of_mem p hq))
    · have hc' : excl.contains (lowerStr p.1) = false := by simpa using hc
      simp only [hc', Bool.false_eq_true, if_false, Bool.not_false, if_true]
      have hsetp : headersSet acc p.1 p.2 = acc ++ [p] := by
        rw [headersSet_of_not_has acc p.1 p.2 (hacc p (List.mem_cons_self p rest))]
      rw [hsetp, ih hrest (acc ++ [p]) ?_, List.append_assoc]
      · rfl
      · intro q hq
        rw [headersHas_append]
        have h1 : headersHas acc q.1 = false := hacc q (List.mem_cons_of_mem p hq)
        have h2 : headersHas [p] q.1 = false := by
          rw [headersHas_false_iff]
          intro r hr
          rw [List.mem_singleton.mp hr]
          simp only [beq_eq_false_iff_ne, ne_eq]
          exact hp q hq
        rw [h1, h2]
        rfl

theorem headersGet_filter_not_excluded (g : HeaderMap) (excl : List String) (n : String)
    (hn : excl.contains (lowerStr n) = false) :
    headersGet (g.filter (fun p => !(excl.contains (lowerStr p.1)))) n =
      headersGet g n := by
  unfold headersGet
  rw [find?_filter_of_excluded]
  intro p hp hq
  have hc : excl.contains (lowerStr p.1) = true := by simpa using hq
  by_contra hcon
  have heq : lowerStr p.1 = lowerStr n := by simpa using hcon
  rw [heq, hn] at hc
  cases hc

theorem addCustomHeaders_get_of_has (h : HeaderMap) (cfg : List (String × String))
    (n : String) (hn : headersHas h n = true) :
    headersGet (addCustomHeaders h cfg) n = headersGet h n := by
  induction cfg generalizing h with
  | nil => rfl
  | cons p rest ih =>
    unfold addCustomHeaders at *
    rw [List.foldl_cons]
    by_cases hc : headersHas h p.1 = true
    · simp only [hc, if_true]
      exact ih h hn
    · have hc' : headersHas h p.1 = false := by simpa using hc
      simp only [hc', Bool.false_eq_true, if_false]
      have hne : lowerStr p.1 ≠ lowerStr n := by
        intro hcontra
        rw [headersHas_congr h p.1 n hcontra, hn] at hc'
        cases hc'
      have h1 : headersGet (headersSet h p.1 p.2) n = headersGet h n := by
        rw [headersGet_set, if_neg hne]
      have h2 : headersHas (headersSet h p.1 p.2) n = true := by
        unfold headersHas
        rw [h1]
        exact hn
      rw [ih (headersSet h p.1 p.2) h2, h1]

theorem addCustomHeaders_get_of_not_has (h : HeaderMap) (cfg : List (String × String))
    (n : String) (hn : headersHas h n = false) :
    headersGet (addCustomHeaders h cfg) n =
      (cfg.find? (fun p => lowerStr p.1 == lowerStr n)).map (fun p => p.2) := by
  induction cfg generalizing h with
  | nil =>
    have hnone : headersGet h n = none := by
      unfold headersHas at hn
      cases hg : headersGet h n with
      | none => rfl
      | some v =>
        rw [hg] at hn
        cases hn
    simpa [addCustomHeaders] using hnone
  | cons p rest ih =>
    rw [List.find?_cons]
    by_cases hc : (lowerStr p.1 == lowerStr n) = true
    · have heq : lowerStr p.1 = lowerStr n := by simpa using hc
      have hhp : headersHas h p.1 = false := by
        rw [headersHas_congr h p.1 n heq]
        exact hn
      have hstep : addCustomHeaders h (p :: rest) =
          addCustomHeaders (headersSet h p.1 p.2) rest := by
        unfold addCustomHeaders
        rw [List.foldl_cons]
        simp only [hhp, Bool.false_eq_true, if_false]
      have hset : headersGet (headersSet h p.1 p.2) n = some p.2 := by
        rw [headersGet_set, if_pos heq]
      have hhas : headersHas (headersSet h p.1 p.2) n = true := by
        unfold headersHas
        rw [hset]
        rfl
      rw [hstep, addCustomHeaders_get_of_has (headersSet h p.1 p.2) rest n hhas, hset, hc]
      rfl
    · have hc' : (lowerStr p.1 == lowerStr n) = false := by simpa using hc
      rw [hc']
      by_cases hph : headersHas h p.1 = true
      · have hstep : addCustomHeaders h (p :: rest) = addCustomHeaders h rest := by
          unfold addCustomHeaders
          rw [List.foldl_cons]
          simp only [hph, if_true]
        rw [hstep]
        exact ih h hn
      · have hph' : headersHas h p.1 = false := by simpa using hph
        have hstep : addCustomHeaders h (p :: rest) =
            addCustomHeaders (headersSet h p.1 p.2) rest := by
          unfold addCustomHeaders
          rw [List.foldl_cons]
          simp only [hph', Bool.false_eq_true, if_false]
        have hne : lowerStr p.1 ≠ lowerStr n := by simpa using hc'
        have hhn : headersHas (headersSet h p.1 p.2) n = false := by
          unfold headersHas
          rw [headersGet_set, if_neg hne]
          exact hn
        rw [hstep]
        exact ih (headersSet h p.1 p.2) hhn

/-- The `processHeadersForProxy` as strip-then-add (the two arms of the source's
`allAuthConfigs.length > 0` conditional invoke the same helper, with
`allAuthConfigs = []` in the degenerate arm). -/
theorem processHeadersForProxy_eq_addCustom (orig : HeaderMap) (cfg : ServerConfig)
    (g : List AuthConfig) :
    processHeadersForProxy orig cfg g =
      addCustomHeaders (createHeadersWithoutAuth orig (g ++ mergeAuthConfigs cfg))
        (cfg.headers.getD []) := by
  unfold processHeadersForProxy
  dsimp only
  by_cases hlen : (g ++ mergeAuthConfigs cfg).length > 0
  · rw [if_pos hlen]
  · have hnil : g ++ mergeAuthConfigs cfg = [] := by
      cases hq : g ++ mergeAuthConfigs cfg with
      | nil => rfl
      | cons a t =>
        rw [hq] at hlen
        simp at hlen
    rw [if_neg hlen, hnil]

/-! ## Claims C3, C7 and C9 -/

/-- **C3 (amended).** Provided that no configured custom header has a
case-insensitive name equal to the header name of a global or merged
per-server auth entry, the output of `processHeadersForProxy` contains no
header whose lowercase name equals the lowercase header name of any such
entry — both tiers' names are stripped regardless of which tier (if any)
authenticated the request.  (Without the proviso, the configured-headers step
may re-add a configured header under a stripped auth name, as the
counterexample shows.) -/
theorem processHeadersForProxy_strips_auth_headers
    (orig : HeaderMap) (cfg : ServerConfig) (g : List AuthConfig) (e : AuthConfig)
    (he : e ∈ g ++ mergeAuthConfigs cfg)
    (hcfg : ∀ p ∈ cfg.headers.getD [], ∀ e2 ∈ g ++ mergeAuthConfigs cfg,
      lowerStr p.1 ≠ lowerStr e2.header) :
    headersGet (processHeadersForProxy orig cfg g) e.header = none := by
  have hex : (createHeaderExclusionSet (g ++ mergeAuthConfigs cfg)).contains
      (lowerStr e.header) = true := by
    unfold createHeaderExclusionSet
    have hmem : lowerStr e.header ∈
        (g ++ mergeAuthConfigs cfg).map (fun config => lowerStr config.header) :=
      List.mem_map_of_mem _ he
    simpa using hmem
  have hstrip : headersGet
      (createHeadersWithoutAuth orig (g ++ mergeAuthConfigs cfg)) e.header = none :=
    createHeadersExcluding_get_excluded orig _ e.header hex
  have hh : headersHas
      (createHeadersWithoutAuth orig (g ++ mergeAuthConfigs cfg)) e.header = false := by
    unfold headersHas
    rw [hstrip]
    rfl
  rw [processHeadersForProxy_eq_addCustom, addCustomHeaders_get_of_not_has _ _ _ hh]
  rw [List.find?_eq_none.mpr ?_]
  · rfl
  · intro p hp
    simp only [Bool.not_eq_true, beq_eq_false_iff_ne, ne_eq]
    exact hcfg p hp e he

/-- Witness for the amended C3 at spec §8 Scenario A: the per-server
`Authorization` requirement is stripped from the outbound headers. -/
theorem processHeadersForProxy_strips_auth_headers_witness :
    headersGet (processHeadersForProxy [("Authorization", "Bearer t1")]
      { url := "https://example.com",
        authConfigs := some [{ header := "Authorization", value := "Bearer t1" }] } [])
      "Authorization" = none := by
  have h := processHeadersForProxy_strips_auth_headers
    [("Authorization", "Bearer t1")]
    { url := "https://example.com",
      authConfigs := some [{ header := "Authorization", value := "Bearer t1" }] }
    [] { header := "Authorization", value := "Bearer t1" } (by decide) (by decide)
  exact h

/-- Counterexample to C3 as stated: with a configured custom header named
`Authorization` and a per-server auth entry of the same name, the final
output of `processHeadersForProxy` does contain an `Authorization` header
(the configured default is re-added after stripping, exactly as spec §4.4
step 3 describes). -/
theorem processHeadersForProxy_c3_counterexample :
    ({ header := "Authorization", value := "tok" } : AuthConfig) ∈
      ([] : List AuthConfig) ++ mergeAuthConfigs
        { url := "https://example.com",
          headers := some [("Authorization", "cfgval")],
          authConfigs := some [{ header := "Authorization", value := "tok" }] } ∧
    headersGet (processHeadersForProxy [("Authorization", "Bearer tok")]
      { url := "https://example.com",
        headers := some [("Authorization", "cfgval")],
        authConfigs := some [{ header := "Authorization", value := "tok" }] } [])
      "Authorization" = some "cfgval" := by
  constructor
  · decide
  · decide

/-- **C7.** The configured-headers step never touches a header that survived
auth-stripping: for every name present after stripping, the final output of
`processHeadersForProxy` returns the stripped map's value unchanged; and for
a name absent after stripping, the final value is exactly that of the first
configured header of that case-insensitive name (so a configured default is
added only where no header already exists, and never overwrites a surviving
incoming header). -/
theorem processHeadersForProxy_custom_headers_spec
    (orig : HeaderMap) (cfg : ServerConfig) (g : List AuthConfig) (n : String) :
    (headersHas (createHeadersWithoutAuth orig (g ++ mergeAuthConfigs cfg)) n = true →
      headersGet (processHeadersForProxy orig cfg g) n =
        headersGet (createHeadersWithoutAuth orig (g ++ mergeAuthConfigs cfg)) n)
    ∧ (headersHas (createHeadersWithoutAuth orig (g ++ mergeAuthConfigs cfg)) n = false →
      headersGet (processHeadersForProxy orig cfg g) n =
        ((cfg.headers.getD []).find? (fun p => lowerStr p.1 == lowerStr n)).map
          (fun p => p.2)) := by
  constructor
  · intro hhas
    rw [processHeadersForProxy_eq_addCustom]
    exact addCustomHeaders_get_of_has _ _ _ hhas
  · intro hhas
    rw [processHeadersForProxy_eq_addCustom]
    exact addCustomHeaders_get_of_not_has _ _ _ hhas

/-- Witness for C7: the incoming `X-Keep` header survives with its client
value despite a configured default of the same name, and the configured
`X-New` header is added where nothing existed. -/
theorem processHeadersForProxy_custom_headers_spec_witness :
    headersGet (processHeadersForProxy [("X-Keep", "v")]
      { url := "https://example.com",
        headers := some [("X-Keep", "cfgv"), ("X-New", "nv")] } []) "X-Keep" =
      some "v" ∧
    headersGet (processHeadersForProxy [("X-Keep", "v")]
      { url := "https://example.com",
        headers := some [("X-Keep", "cfgv"), ("X-New", "nv")] } []) "X-New" =
      some "nv" := by
  constructor
  · have h := (processHeadersForProxy_custom_headers_spec [("X-Keep", "v")]
      { url := "https://example.com",
        headers := some [("X-Keep", "cfgv"), ("X-New", "nv")] } [] "X-Keep").1
      (by decide)
    rw [h]
    decide
  · have h := (processHeadersForProxy_custom_headers_spec [("X-Keep", "v")]
      { url := "https://example.com",
        headers := some [("X-Keep", "cfgv"), ("X-New", "nv")] } [] "X-New").2
      (by decide)
    rw [h]
    decide

/-- **C9.** The Header-Processor transformation (strip the exclusion set,
then add configured headers only where absent) is idempotent: applying it a
second time to its own output, with the same exclusion set and configured
headers, yields an identical header map (identical as a `Headers` object,
i.e. every case-insensitive lookup agrees — `Headers` iteration order is
name-sorted and carries no extra information). -/
theorem headerTransform_idempotent (excl : List String)
    (cfgHeaders : List (String × String)) (h : HeaderMap) (n : String) :
    headersGet (headerTransform excl cfgHeaders (headerTransform excl cfgHeaders h)) n =
      headersGet (headerTransform excl cfgHeaders h) n := by
  have hcuT1 : ClassUnique (addCustomHeaders (createHeadersExcluding h excl) cfgHeaders) :=
    classUnique_addCustomHeaders _ _ (classUnique_createHeadersExcluding h excl)
  unfold headerTransform
  by_cases hex : excl.contains (lowerStr n) = true
  · have hh2 : headersHas (createHeadersExcluding
        (addCustomHeaders (createHeadersExcluding h excl) cfgHeaders) excl) n = false := by
      unfold headersHas
      rw [createHeadersExcluding_get_excluded _ excl n hex]
      rfl
    have hh1 : headersHas (createHeadersExcluding h excl) n = false := by
      unfold headersHas
      rw [createHeadersExcluding_get_excluded h excl n hex]
      rfl
    rw [addCustomHeaders_get_of_not_has _ _ _ hh2,
      addCustomHeaders_get_of_not_has _ _ _ hh1]
  · have hex' : excl.contains (lowerStr n) = false := by simpa using hex
    have hgetstrip : headersGet (createHeadersExcluding
        (addCustomHeaders (createHeadersExcluding h excl) cfgHeaders) excl) n =
        headersGet (addCustomHeaders (createHeadersExcluding h excl) cfgHeaders) n := by
      rw [createHeadersExcluding_eq_filter _ excl hcuT1,
        headersGet_filter_not_excluded _ excl n hex']
    have hhasstrip : headersHas (createHeadersExcluding
        (addCustomHeaders (createHeadersExcluding h excl) cfgHeaders) excl) n =
        headersHas (addCustomHeaders (createHeadersExcluding h excl) cfgHeaders) n := by
      unfold headersHas
      rw [hgetstrip]
    by_cases hhT1 : headersHas
        (addCustomHeaders (createHeadersExcluding h excl) cfgHeaders) n = true
    · rw [addCustomHeaders_get_of_has _ _ _ (hhasstrip.trans hhT1), hgetstrip]
    · have hhT1' : headersHas
          (addCustomHeaders (createHeadersExcluding h excl) cfgHeaders) n = false := by
        simpa using hhT1
      rw [addCustomHeaders_get_of_not_has _ _ _ (hhasstrip.trans hhT1')]
      by_cases hh1 : headersHas (createHeadersExcluding h excl) n = true
      · exfalso
        have hA := addCustomHeaders_get_of_has (createHeadersExcluding h excl)
          cfgHeaders n hh1
        unfold headersHas at hhT1' hh1
        rw [hA, hh1] at hhT1'
        cases hhT1'
      · have hh1' : headersHas (createHeadersExcluding h excl) n = false := by
          simpa using hh1
        exact (addCustomHeaders_get_of_not_has (createHeadersExcluding h excl)
          cfgHeaders n hh1').symm

/-! ## Config processing (src/secret-interpolation.ts)

`processServerConfig` consists of three sequential blocks (legacy `auth`,
modern `authConfigs`, custom `headers`), modelled as three field processors
composed left to right; a thrown interpolation error aborts the whole step. -/

/-- The `if (processedConfig.auth)` block of `processServerConfig`: strict
interpolation of a (truthy, i.e. non-empty) legacy auth value, any failure
re-thrown as the fixed message.  An absent or empty value is left untouched. -/
def processAuthField (auth : Option String) (secrets : String → Option String) :
    Except String (Option String) :=
  match auth with
  | none => .ok none
  | some a =>
    if a = "" then
      .ok (some a)
    else
      match interpolateSecret a secrets true with
      | .ok v => .ok (some v)
      | .error _ => .error "Missing required authentication secret"

/-- JavaScript `Array.prototype.map` with a throwing callback, as the
Except-propagating traversal: the first thrown error aborts the whole map. -/
def mapExcept {α β : Type} (f : α → Except String β) : List α → Except String (List β)
  | [] => .ok []
  | a :: t =>
    match f a with
    | .error e => .error e
    | .ok b =>
      match mapExcept f t with
      | .error e => .error e
      | .ok bs => .ok (b :: bs)

/-- The `if (processedConfig.authConfigs)` block of `processServerConfig`:
strict interpolation of each entry's value; note the map rebuilds each entry
from `header` and `value` only, dropping a `required` field if present. -/
def processAuthConfigsField (authConfigs : Option (List AuthConfig))
    (secrets : String → Option String) : Except String (Option (List AuthConfig)) :=
  match authConfigs with
  | none => .ok none
  | some l =>
    (mapExcept (fun config => (interpolateSecret config.value secrets true).map
      (fun v => ({ header := config.header, value := v } : AuthConfig))) l).map some

/-- The `if (processedConfig.headers)` block of `processServerConfig`:
non-strict interpolation of each custom header value. -/
def processHeadersField (headers : Option (List (String × String)))
    (secrets : String → Option String) :
    Except String (Option (List (String × String))) :=
  match headers with
  | none => .ok none
  | some hs =>
    (mapExcept (fun p => (interpolateSecret p.2 secrets false).map
      (fun v => (p.1, v))) hs).map some

/-- The `processServerConfig` from `src/secret-interpolation.ts`. -/
def processServerConfig (config : ServerConfig) (secrets : String → Option String) :
    Except String ServerConfig :=
  match processAuthField config.auth secrets with
  | .error e => .error e
  | .ok auth =>
    match processAuthConfigsField config.authConfigs secrets with
    | .error e => .error e
    | .ok authConfigs =>
      match processHeadersField config.headers secrets with
      | .error e => .error e
      | .ok headers =>
        .ok { config with auth := auth, authConfigs := authConfigs, headers := headers }

/-- The `processGlobalAuthConfigs` from `src/secret-interpolation.ts`: strict
interpolation of every global entry value (also rebuilding entries from
`header` and `value` only). -/
def processGlobalAuthConfigs (configs : List AuthConfig)
    (secrets : String → Option String) : Except String (List AuthConfig) :=
  mapExcept (fun config => (interpolateSecret config.value secrets true).map
    (fun v => ({ header := config.header, value := v } : AuthConfig))) configs

/-! ## Global auth loading (src/utils/global-auth.ts)

The worker `Env` is modelled by the three capabilities this code reads: the
`GLOBAL_AUTH_CONFIGS` variable, the secret lookup `env[name]`, and the result
of `env.PROXY_SERVERS.get('global-auth-configs')` (`ok none` when the record
is absent, `error` when the KV read throws).  `JSON.parse` is a platform
collaborator and is passed in as `parseJson`, returning the decoded
`AuthConfig` array or the thrown syntax error's message. -/

/-- The environment as observed by the global-auth loader. -/
structure Env where
  GLOBAL_AUTH_CONFIGS : Option String
  secrets : String → Option String
  kvGlobalAuthConfigs : Except String (Option String)

/-- The `GlobalAuthResult` from `src/utils/global-auth.ts`. -/
structure GlobalAuthResult where
  configs : List AuthConfig
  hasGlobalAuth : Bool
  error : Option String := none
  deriving DecidableEq, Repr

/-- The `parseGlobalAuthConfig` from `src/utils/global-auth.ts`: JSON-parse, then
validate with `validateAuthConfigs`; either failure yields an error result
with `hasGlobalAuth = false`. -/
def parseGlobalAuthConfig (parseJson : String → Except String (List AuthConfig))
    (configJson : String) : GlobalAuthResult :=
  match parseJson configJson with
  | .error msg =>
    { configs := [], hasGlobalAuth := false,
      error := some ("Failed to parse global auth configuration: " ++ msg) }
  | .ok configs =>
    let validation := validateAuthConfigs (some configs)
    if !validation.isValid then
      { configs := [], hasGlobalAuth := false,
        error := some ("Global auth configuration invalid: " ++
          ((validation.error.map (fun e => e.message)).getD "")) }
    else
      { configs := configs, hasGlobalAuth := true }

/-- The `loadGlobalAuthFromEnv` from `src/utils/global-auth.ts`
(`if (!globalAuthConfig)` also treats an empty string as absent). -/
def loadGlobalAuthFromEnv (parseJson : String → Except String (List AuthConfig))
    (env : Env) : GlobalAuthResult :=
  match env.GLOBAL_AUTH_CONFIGS with
  | none => { configs := [], hasGlobalAuth := false }
  | some s =>
    if s = "" then
      { configs := [], hasGlobalAuth := false }
    else
      parseGlobalAuthConfig parseJson s

/-- The `loadGlobalAuthFromKV` from `src/utils/global-auth.ts`.  A thrown KV read
is the `error` branch; the `typeof globalAuthConfig !== 'string'` guard is
vacuous in the typed model (the KV value is a string when present). -/
def loadGlobalAuthFromKV (parseJson : String → Except String (List AuthConfig))
    (env : Env) : GlobalAuthResult :=
  match env.kvGlobalAuthConfigs with
  | .error msg =>
    { configs := [], hasGlobalAuth := false,
      error := some ("Failed to load global auth from KV: " ++ msg) }
  | .ok none => { configs := [], hasGlobalAuth := false }
  | .ok (some s) =>
    if s = "" then
      { configs := [], hasGlobalAuth := false }
    else
      parseGlobalAuthConfig parseJson s

/-- The `loadGlobalAuthConfiguration` from `src/utils/global-auth.ts`: try the
environment variable, fall back to KV, interpolate secrets into whichever
source was configured.  Note: when the env result has `hasGlobalAuth = false`
its `error` field is not consulted — the function falls through to KV
regardless. -/
def loadGlobalAuthConfiguration (parseJson : String → Except String (List AuthConfig))
    (env : Env) : GlobalAuthResult :=
  let envResult := loadGlobalAuthFromEnv parseJson env
  if envResult.hasGlobalAuth then
    match processGlobalAuthConfigs envResult.configs env.secrets with
    | .ok processed => { envResult with configs := processed }
    | .error msg =>
      { configs := [], hasGlobalAuth := false,
        error := some ("Global auth secret interpolation failed: " ++ msg) }
  else
    let kvResult := loadGlobalAuthFromKV parseJson env
    if kvResult.hasGlobalAuth then
      match processGlobalAuthConfigs kvResult.configs env.secrets with
      | .ok processed => { kvResult with configs := processed }
      | .error msg =>
        { configs := [], hasGlobalAuth := false,
          error := some ("Global auth secret interpolation failed: " ++ msg) }
    else
      kvResult

/-! ## processRequest guard stages (src/request-processor.ts) -/

/-- Outcome of a guard stage of `processRequest`: an HTTP error response with
its status code, or the value the pipeline continues with. -/
inductive StageResult (α : Type) where
  | respond (status : Nat)
  | proceed (value : α)
  deriving DecidableEq, Repr

/-- The global-auth-loading stage of `processRequest`
(`src/request-processor.ts` lines 174–187): a result carrying an error yields
`createConfigInvalidResponse()` — HTTP 500 — otherwise the loaded configs
flow on. -/
def processRequestGlobalAuthStage (parseJson : String → Except String (List AuthConfig))
    (env : Env) : StageResult (List AuthConfig) :=
  let globalAuthResult := loadGlobalAuthConfiguration parseJson env
  match globalAuthResult.error with
  | some _ => .respond 500
  | none => .proceed globalAuthResult.configs

/-- The secret-interpolation stage of `processRequest`
(`src/request-processor.ts` lines 200–207): a throw from
`processServerConfig` yields `createConfigInvalidResponse()` — HTTP 500. -/
def processRequestConfigStage (config : ServerConfig)
    (secrets : String → Option String) : StageResult ServerConfig :=
  match processServerConfig config secrets with
  | .ok processed => .proceed processed
  | .error _ => .respond 500

/-! ## Claim C2 -/

/-- The global-auth source text of the C2 failing input: a well-formed JSON
array holding one `AuthConfig` whose header name is empty, which fails
`validateAuthConfigs`. -/
def invalidGlobalAuthJson : String :=
  "[\x7b\"header\":\"\",\"value\":\"x\"\x7d]"

/-- Platform model of `JSON.parse` for the C2 evaluation: the text above
decodes to its singleton entry.  The theorems below only ever parse that
text; every other input is mapped to a syntax error as a don't-care
default. -/
def parseJsonC2 : String → Except String (List AuthConfig) :=
  fun s =>
    if s = invalidGlobalAuthJson then
      .ok [{ header := "", value := "x" }]
    else
      .error "Unexpected token"

/-- The C2 failing environment: `GLOBAL_AUTH_CONFIGS` holds the invalid
source, there is no KV fallback record, and no secrets are defined. -/
def envC2 : Env :=
  { GLOBAL_AUTH_CONFIGS := some invalidGlobalAuthJson,
    secrets := fun _ => none,
    kvGlobalAuthConfigs := .ok none }

/-- **C2 (code bug).** At the failing input — `GLOBAL_AUTH_CONFIGS` present
but failing AuthEntry validation, no KV fallback record — the env-tier loader
itself reports the error, yet `loadGlobalAuthConfiguration` checks only
`hasGlobalAuth`, falls through to KV, and returns the clean "not configured"
KV result, dropping the error; the global-auth stage of `processRequest`
therefore proceeds with an empty global auth list instead of responding 500,
contradicting the spec (§7) and the repository's own openspec scenario
"Invalid global auth configuration" → 500. -/
theorem loadGlobalAuthConfiguration_drops_env_error :
    (loadGlobalAuthFromEnv parseJsonC2 envC2).error.isSome = true ∧
    loadGlobalAuthConfiguration parseJsonC2 envC2 =
      { configs := [], hasGlobalAuth := false, error := none } ∧
    processRequestGlobalAuthStage parseJsonC2 envC2 = .proceed [] := by
  refine ⟨?_, ?_, ?_⟩ <;> decide

/-! ## Claim C4 -/

theorem mapExcept_error {α β : Type} (f : α → Except String β) (l : List α)
    (x : α) (hx : x ∈ l) (e : String) (he : f x = .error e) :
    ∃ e2, mapExcept f l = .error e2 := by
  induction l with
  | nil => cases hx
  | cons a t ih =>
    unfold mapExcept
    cases hfa : f a with
    | error ea => exact ⟨ea, rfl⟩
    | ok b =>
      rcases List.mem_cons.mp hx with h1 | h2
      · rw [h1, hfa] at he
        cases he
      · obtain ⟨e2, he2⟩ := ih h2
        exact ⟨e2, by rw [he2]⟩

/-- **C4.** Every configuration value that participates in an authentication
decision is interpolated strictly, and a `$\x7bNAME\x7d` placeholder whose
name is unavailable (as computed by the source's own `extractSecretNames` /
`validateSecretsAvailable`) aborts the step and surfaces as HTTP 500:
(i) for the legacy auth value and (ii) for any modern per-server entry value,
`processServerConfig` throws and the config stage of `processRequest`
responds 500; (iii) for any global auth entry value, secret interpolation in
`loadGlobalAuthConfiguration` fails and the global-auth stage responds
500. -/
theorem missing_strict_secret_yields_500 :
    (∀ (config : ServerConfig) (secrets : String → Option String) (a : String),
      config.auth = some a → a ≠ "" →
      validateSecretsAvailable (extractSecretNames a) secrets = false →
      processRequestConfigStage config secrets = .respond 500)
    ∧ (∀ (config : ServerConfig) (secrets : String → Option String)
        (l : List AuthConfig) (e : AuthConfig),
        config.authConfigs = some l → e ∈ l →
        validateSecretsAvailable (extractSecretNames e.value) secrets = false →
        processRequestConfigStage config secrets = .respond 500)
    ∧ (∀ (parseJson : String → Except String (List AuthConfig)) (env : Env)
        (raw : String) (entries : List AuthConfig) (e : AuthConfig),
        env.GLOBAL_AUTH_CONFIGS = some raw → raw ≠ "" →
        parseJson raw = .ok entries →
        (validateAuthConfigs (some entries)).isValid = true →
        e ∈ entries →
        validateSecretsAvailable (extractSecretNames e.value) env.secrets = false →
        processRequestGlobalAuthStage parseJson env = .respond 500) := by
  refine ⟨?_, ?_, ?_⟩
  · intro config secrets a ha hane hmiss
    obtain ⟨e, he⟩ := interpolateSecret_strict_error a secrets hmiss
    have hauth : processAuthField config.auth secrets =
        .error "Missing required authentication secret" := by
      simp only [processAuthField, ha, if_neg hane, he]
    unfold processRequestConfigStage processServerConfig
    rw [hauth]
  · intro config secrets l e hl he hmiss
    obtain ⟨er, her⟩ := interpolateSecret_strict_error e.value secrets hmiss
    obtain ⟨e2, he2⟩ := mapExcept_error
      (fun config => (interpolateSecret config.value secrets true).map
        (fun v => ({ header := config.header, value := v } : AuthConfig)))
      l e he er (by dsimp only; rw [her]; rfl)
    have hcfgs : processAuthConfigsField config.authConfigs secrets = .error e2 := by
      simp only [processAuthConfigsField, hl, he2]
      rfl
    unfold processRequestConfigStage processServerConfig
    cases hauth : processAuthField config.auth secrets with
    | error ea => rfl
    | ok av => rw [hcfgs]
  · intro parseJson env raw entries e hvar hraw hparse hvalid he hmiss
    obtain ⟨er, her⟩ := interpolateSecret_strict_error e.value env.secrets hmiss
    obtain ⟨e2, he2⟩ := mapExcept_error
      (fun config => (interpolateSecret config.value env.secrets true).map
        (fun v => ({ header := config.header, value := v } : AuthConfig)))
      entries e he er (by dsimp only; rw [her]; rfl)
    have henv : loadGlobalAuthFromEnv parseJson env =
        { configs := entries, hasGlobalAuth := true } := by
      simp only [loadGlobalAuthFromEnv, hvar, if_neg hraw, parseGlobalAuthConfig, hparse,
        hvalid, Bool.not_true, Bool.false_eq_true, if_false]
    have hload : loadGlobalAuthConfiguration parseJson env =
        { configs := [], hasGlobalAuth := false,
          error := some ("Global auth secret interpolation failed: " ++ e2) } := by
      unfold loadGlobalAuthConfiguration
      rw [henv]
      simp only [if_true]
      rw [show processGlobalAuthConfigs entries env.secrets = .error e2 from he2]
    unfold processRequestGlobalAuthStage
    rw [hload]

/-- Concrete evaluation of the scanner: `$\x7bMISSING\x7d` references exactly
the name `MISSING`. -/
theorem extractSecretNames_missing :
    extractSecretNames ("$\x7b" ++ "MISSING" ++ "\x7d") = ["MISSING"] := by
  unfold extractSecretNames
  rw [show ("$\x7b" ++ "MISSING" ++ "\x7d").data =
    '$' :: '{' :: ("MISSING".data ++ '}' :: ([] : List Char)) from by
      simp [String.data_append]]
  rw [extractGo_placeholder ("MISSING".data ++ '}' :: []) "MISSING".data []
    (by decide) (by decide)]
  rw [extractGo.eq_1]

/-- The C4 witness configs and environment. -/
def cfgC4a : ServerConfig :=
  { url := "https://example.com", auth := some ("$\x7b" ++ "MISSING" ++ "\x7d") }

def cfgC4b : ServerConfig :=
  { url := "https://example.com",
    authConfigs := some [{ header := "X-Key", value := "$\x7b" ++ "MISSING" ++ "\x7d" }] }

/-- The C4 global-auth source text: a well-formed JSON array with one entry
whose value references `$\x7bMISSING\x7d`. -/
def globalAuthJsonC4 : String :=
  "[\x7b\"header\":\"X-Admin\",\"value\":\"$\x7bMISSING\x7d\"\x7d]"

/-- Platform model of `JSON.parse` for the C4 evaluation (only the text above
is ever parsed in the witness; other inputs are a don't-care default). -/
def parseJsonC4 : String → Except String (List AuthConfig) :=
  fun s =>
    if s = globalAuthJsonC4 then
      .ok [{ header := "X-Admin", value := "$\x7b" ++ "MISSING" ++ "\x7d" }]
    else
      .error "Unexpected token"

def envC4 : Env :=
  { GLOBAL_AUTH_CONFIGS := some globalAuthJsonC4,
    secrets := fun _ => none,
    kvGlobalAuthConfigs := .ok none }

/-- Witness for C4: at a secretless environment, a `$\x7bMISSING\x7d`
placeholder in the legacy auth value, in a modern per-server entry and in a
global entry each drive the respective `processRequest` stage to 500. -/
theorem missing_strict_secret_yields_500_witness :
    processRequestConfigStage cfgC4a (fun _ => none) = .respond 500 ∧
    processRequestConfigStage cfgC4b (fun _ => none) = .respond 500 ∧
    processRequestGlobalAuthStage parseJsonC4 envC4 = .respond 500 := by
  have hmiss : validateSecretsAvailable
      (extractSecretNames ("$\x7b" ++ "MISSING" ++ "\x7d")) (fun _ => none) = false := by
    rw [extractSecretNames_missing]
    decide
  refine ⟨?_, ?_, ?_⟩
  · exact missing_strict_secret_yields_500.1 cfgC4a (fun _ => none)
      ("$\x7b" ++ "MISSING" ++ "\x7d") rfl (by decide) hmiss
  · exact missing_strict_secret_yields_500.2.1 cfgC4b (fun _ => none)
      [{ header := "X-Key", value := "$\x7b" ++ "MISSING" ++ "\x7d" }]
      { header := "X-Key", value := "$\x7b" ++ "MISSING" ++ "\x7d" }
      rfl (by decide) hmiss
  · exact missing_strict_secret_yields_500.2.2 parseJsonC4 envC4 globalAuthJsonC4
      [{ header := "X-Admin", value := "$\x7b" ++ "MISSING" ++ "\x7d" }]
      { header := "X-Admin", value := "$\x7b" ++ "MISSING" ++ "\x7d" }
      rfl (by decide) (by rfl) (by decide) (by decide) hmiss

end CFProxy
